import Mathlib

set_option maxHeartbeats 1000000
set_option linter.unnecessarySeqFocus false

/-!
Verification development for the constraint orchestration layer of
src/gromacs/mdlib/constr.cpp.  The definitions below are a shallow
embedding of that file: reals are modelled by rationals, machine ints by
Int/Nat, the three numerical solvers (LINCS, SHAKE, SETTLE) are treated
as external adapters whose per-call outcomes (success flags, virial
contributions, per-thread error flags) are inputs to the model, exactly
as the dispatcher consumes them.
-/

/-- Virial tensors: 3 by 3 matrices of rationals (the C code uses the
real type; tensor addition and scaling are the only operations the
dispatcher performs on them). -/
abbrev tensor : Type := Fin 3 → Fin 3 → ℚ

/-- Entrywise scaling of a tensor, as in the final virial loop of
constrain (constr.cpp lines 537-543). -/
def scaleTensor (f : ℚ) (t : tensor) : tensor := fun i j => f * t i j

/-- Constraint quantity selector (econq).  The first six constructors
are the enum values econqCoord, econqVeloc, econqDeriv, econqForce,
econqForceDispl, econqDeriv_FlexCon consumed by constrain; unknown
stands for any other integer value a caller could pass in the C enum,
reaching the default (gmx_incons) branches of the switches. -/
inductive Econq where
  | coord
  | veloc
  | deriv
  | force
  | forceDispl
  | derivFlexCon
  | unknown
deriving DecidableEq, Repr

/-- INT_MAX, the value maxwarn takes for the unlimited policy
(constr.cpp line 882). -/
def intMax : Int := 2147483647

/-- Inverse effective time step computed at the top of constrain
(constr.cpp lines 261-272): scaled_delta_t = step_scaling * delta_t and
invdt is 0 when the nominal time step delta_t is 0, otherwise
1/scaled_delta_t. -/
def invdtOf (delta_t step_scaling : ℚ) : ℚ :=
  let scaled_delta_t := step_scaling * delta_t
  if delta_t = 0 then 0 else 1 / scaled_delta_t

/-- Base virial factor of the switch in constrain (lines 517-531):
0.5/dt^2 for coordinates, 0.5/dt for velocities, 0.5 for force and
force-with-displacement; none encodes the gmx_incons fatal default. -/
def virFacBase : Econq → ℚ → Option ℚ
  | .coord, dt => some (1 / 2 / (dt * dt))
  | .veloc, dt => some (1 / 2 / dt)
  | .force, _ => some (1 / 2)
  | .forceDispl, _ => some (1 / 2)
  | _, _ => none

/-- Full virial factor including the velocity-Verlet doubling
(constr.cpp lines 533-536): vir_fac *= 2 when EI_VV(ir->eI).  The
velocity-Verlet-family test EI_VV lives in md_enums.h, outside these
sources, so it enters the model as the boolean bVV. -/
def virFac (q : Econq) (dt : ℚ) (bVV : Bool) : Option ℚ :=
  (virFacBase q dt).map (fun f => if bVV then f * 2 else f)

/-- Start of settle-group sub-range of worker th (constr.cpp line 441:
start_th = (nsettle*th)/nth). -/
def settleStart (nsettle nth th : Nat) : Nat := nsettle * th / nth

/-- End of settle-group sub-range of worker th (constr.cpp line 442:
end_th = (nsettle*(th+1))/nth). -/
def settleEnd (nsettle nth th : Nat) : Nat := nsettle * (th + 1) / nth

/-- Virial contribution accumulated by worker th, given the per-group
contributions v of the closed-form solver: the sum over the contiguous
sub-range of groups the worker owns.  The guard mirrors line 444
(start_th >= 0 && end_th - start_th > 0): an empty sub-range performs no
solver call and leaves the cleared slot at zero. -/
def threadSettleVir (v : Nat → tensor) (nsettle nth th : Nat) : tensor :=
  if 0 < settleEnd nsettle nth th - settleStart nsettle nth th then
    ∑ g in Finset.Ico (settleStart nsettle nth th) (settleEnd nsettle nth th), v g
  else 0

/-- Post-parallel reduction of constr.cpp lines 467-474: thread 0 wrote
into the shared tensor vir_r_m_dr (which already holds base, the
contributions of the iterative solvers), threads 1..nth-1 wrote into
their own cleared slots, and the reduction adds those slots into thread
0's tensor. -/
def reducedSettleVir (base : tensor) (v : Nat → tensor) (nsettle nth : Nat) : tensor :=
  (base + threadSettleVir v nsettle nth 0) +
    ∑ th in Finset.Ico 1 nth, threadSettleVir v nsettle nth th

lemma threadSettleVir_eq_sum (v : Nat → tensor) (nsettle nth th : Nat) :
    threadSettleVir v nsettle nth th =
      ∑ g in Finset.Ico (settleStart nsettle nth th) (settleEnd nsettle nth th), v g := by
  unfold threadSettleVir
  split
  · rfl
  · rename_i h
    rw [Finset.Ico_eq_empty (by omega), Finset.sum_empty]

lemma sum_blocks_Ico {M : Type} [AddCommMonoid M] (f : Nat → M) (b : Nat → Nat)
    (hb : Monotone b) (n : Nat) :
    (∑ k in Finset.range n, ∑ g in Finset.Ico (b k) (b (k + 1)), f g) =
      ∑ g in Finset.Ico (b 0) (b n), f g := by
  induction n with
  | zero => simp
  | succ n ih =>
      rw [Finset.sum_range_succ, ih,
        Finset.sum_Ico_consecutive f (hb (Nat.zero_le n)) (hb (Nat.le_succ n))]

lemma settleBound_monotone (nsettle nth : Nat) :
    Monotone (fun th => nsettle * th / nth) := by
  intro i j hij
  exact Nat.div_le_div_right (Nat.mul_le_mul_left nsettle hij)

lemma settle_partition (v : Nat → tensor) (nsettle nth : Nat) (h : 1 ≤ nth) :
    (∑ th in Finset.range nth, threadSettleVir v nsettle nth th) =
      ∑ g in Finset.Ico 0 nsettle, v g := by
  have hend : nsettle * nth / nth = nsettle :=
    Nat.mul_div_cancel nsettle (Nat.lt_of_lt_of_le Nat.zero_lt_one h)
  calc
    (∑ th in Finset.range nth, threadSettleVir v nsettle nth th)
        = ∑ th in Finset.range nth,
            ∑ g in Finset.Ico (nsettle * th / nth) (nsettle * (th + 1) / nth), v g := by
          refine Finset.sum_congr rfl (fun th _ => ?_)
          rw [threadSettleVir_eq_sum]
          rfl
    _ = ∑ g in Finset.Ico (nsettle * 0 / nth) (nsettle * nth / nth), v g :=
          sum_blocks_Ico v (fun th => nsettle * th / nth) (settleBound_monotone nsettle nth) nth
    _ = ∑ g in Finset.Ico 0 nsettle, v g := by rw [Nat.mul_zero, Nat.zero_div, hend]

lemma reducedSettleVir_eq (base : tensor) (v : Nat → tensor) (nsettle nth : Nat)
    (h : 1 ≤ nth) :
    reducedSettleVir base v nsettle nth = base + ∑ g in Finset.Ico 0 nsettle, v g := by
  unfold reducedSettleVir
  rw [add_assoc]
  congr 1
  have hsplit :
      (threadSettleVir v nsettle nth 0 + ∑ th in Finset.Ico 1 nth, threadSettleVir v nsettle nth th)
        = ∑ th in Finset.range nth, threadSettleVir v nsettle nth th := by
    rw [Finset.range_eq_Ico,
      ← Finset.sum_Ico_consecutive (threadSettleVir v nsettle nth) (Nat.zero_le 1) h]
    congr 1
    rw [← Finset.range_eq_Ico, Finset.sum_range_one]
  rw [hsplit, settle_partition v nsettle nth h]

/-- C2 (confirmed): for every base tensor, per-group contributions and
worker count nth >= 1, the reduced virial of the nth-threaded closed-form
path equals the reduced virial of the single-threaded run on the same
input. -/
theorem settle_reduction_thread_invariant (base : tensor) (v : Nat → tensor)
    (nsettle nth : Nat) (h : 1 ≤ nth) :
    reducedSettleVir base v nsettle nth = reducedSettleVir base v nsettle 1 := by
  rw [reducedSettleVir_eq base v nsettle nth h,
    reducedSettleVir_eq base v nsettle 1 (le_refl 1)]

/-- Persistent manager state crossing constrain calls: the warning
threshold (read from the environment once, at manager construction) and
the settle-family warning counter (t_gmx_constr fields maxwarn and
warncount_settle).  The LINCS-family counter is mutated inside the
external LINCS adapter and is not modelled here. -/
structure WarnState where
  maxwarn : Int
  warncount_settle : Int
deriving DecidableEq, Repr

/-- Per-call inputs of constrain, with the three solver adapters
abstracted by their observable outcomes: presence (non-null handle),
success flag, and virial contribution for LINCS and SHAKE; per-group
virial contributions and per-thread error flags for SETTLE.  delta_t
and step_scaling are the nominal time step and its scaling;
bVV abstracts EI_VV(ir->eI) and bEMin abstracts
EI_ENERGY_MINIMIZATION(ir->eI) (md_enums.h, outside these sources). -/
structure ConstrainArgs where
  lincsPresent : Bool
  lincsOK : Bool
  lincsVir : tensor
  shakePresent : Bool
  shakeOK : Bool
  shakeVir : tensor
  nsettle : Nat
  nthConfig : Nat
  settleVir : Nat → tensor
  settleErrTh : Nat → Bool
  econq : Econq
  wantVir : Bool
  delta_t : ℚ
  step_scaling : ℚ
  bVV : Bool
  bEMin : Bool
  homenr : Nat

/-- Worker count of the settle parallel region (constr.cpp lines
292-299): the configured SETTLE thread count when settles exist, else 1. -/
def constrainNth (a : ConstrainArgs) : Nat :=
  if 0 < a.nsettle then a.nthConfig else 1

/-- Combined settle failure flag after the error reduction of lines
476-481: settle work only runs when settles exist, the error flags are
only produced and reduced for econqCoord, and the reduction ORs the
thread-0 flag with the slots of threads 1..nth-1. -/
def settleFailFlag (a : ConstrainArgs) : Bool :=
  decide (0 < a.nsettle) && decide (a.econq = Econq.coord)
    && (List.range (constrainNth a)).any a.settleErrTh

/-- Dump-flag contribution of the LINCS branch (lines 347-355): set on
failure only when the warning budget is not unlimited. -/
def lincsDumpFlag (s : WarnState) (a : ConstrainArgs) : Bool :=
  a.lincsPresent && !a.lincsOK && decide (s.maxwarn < intMax)

/-- Dump-flag contribution of the SHAKE branch (lines 367-375): the
same policy as the LINCS branch, checked independently of the LINCS
outcome. -/
def shakeDumpFlag (s : WarnState) (a : ConstrainArgs) : Bool :=
  a.shakePresent && !a.shakeOK && decide (s.maxwarn < intMax)

/-- Raw reduced virial tensor vir_r_m_dr at the end of the settle block:
the iterative solvers accumulated their contributions into the shared
tensor when invoked (lines 339-376), and when settles exist the settle
region and the thread reduction of lines 467-474 add the per-thread
partial sums on top. -/
def constrainRawVir (a : ConstrainArgs) : tensor :=
  let base : tensor :=
    (if a.lincsPresent then a.lincsVir else 0) +
      (if a.shakePresent then a.shakeVir else 0)
  if 0 < a.nsettle then reducedSettleVir base a.settleVir a.nsettle (constrainNth a)
  else base

/-- Result of one constrain call.  fatalWarn records the
too_many_constraint_warnings termination (line 498); fatalIncons
records the gmx_incons terminations (the ForceDispl precondition at
line 250, the settle-switch default at line 464, and the virial-switch
default at line 530); invdt records the inverse effective time step
handed to the solver adapters. -/
structure ConstrainResult where
  bOK : Bool
  bDump : Bool
  state : WarnState
  fatalWarn : Bool
  fatalIncons : Bool
  virOut : Option tensor
  invdt : ℚ

/-- Shallow embedding of constrain (constr.cpp lines 225-574) over the
abstracted solver outcomes.  Points worth noting against the source:
the SHAKE result overwrites bOK (line 360 assigns, it does not AND);
the settle failure sets bOK to FALSE and bumps warncount_settle before
the dump flag is set; the virial output scales the raw reduced tensor
by the quantity factor. -/
def constrain (s : WarnState) (a : ConstrainArgs) : ConstrainResult :=
  let fatalFD : Bool := decide (a.econq = Econq.forceDispl) && !a.bEMin
  let bOK1 : Bool := if a.lincsPresent then a.lincsOK else true
  let bOK2 : Bool := if a.shakePresent then a.shakeOK else bOK1
  let sFail : Bool := settleFailFlag a
  let warncount : Int := if sFail then s.warncount_settle + 1 else s.warncount_settle
  let fatalWarn : Bool := sFail && decide (s.maxwarn < warncount)
  let bDump : Bool := lincsDumpFlag s a || shakeDumpFlag s a || sFail
  let bOK : Bool := bOK2 && !sFail
  let fatalSettleQ : Bool := decide (0 < a.nsettle) && decide (a.econq = Econq.unknown)
  let virOut : Option tensor :=
    if a.wantVir then
      (virFac a.econq a.delta_t a.bVV).map (fun f => scaleTensor f (constrainRawVir a))
    else none
  let fatalVir : Bool := a.wantVir && (virFac a.econq a.delta_t a.bVV).isNone
  { bOK := bOK
    bDump := bDump
    state := { s with warncount_settle := warncount }
    fatalWarn := fatalWarn
    fatalIncons := fatalFD || fatalSettleQ || fatalVir
    virOut := virOut
    invdt := invdtOf a.delta_t a.step_scaling }

/-- Sequence of constrain calls: too_many_constraint_warnings calls
gmx_fatal, which terminates the process, so a trace stops at the first
fatal warning overflow; the boolean reports whether that happened. -/
def constrainTrace (s : WarnState) : List ConstrainArgs → WarnState × Bool
  | [] => (s, false)
  | a :: rest =>
      let r := constrain s a
      if r.fatalWarn then (r.state, true)
      else constrainTrace r.state rest

lemma constrain_bOK_eq (s : WarnState) (a : ConstrainArgs) :
    (constrain s a).bOK =
      ((if a.shakePresent then a.shakeOK else if a.lincsPresent then a.lincsOK else true)
        && !settleFailFlag a) := rfl

lemma constrain_warncount_eq (s : WarnState) (a : ConstrainArgs) :
    (constrain s a).state.warncount_settle =
      if settleFailFlag a then s.warncount_settle + 1 else s.warncount_settle := rfl

lemma constrain_maxwarn_eq (s : WarnState) (a : ConstrainArgs) :
    (constrain s a).state.maxwarn = s.maxwarn := rfl

lemma constrain_fatalWarn_eq (s : WarnState) (a : ConstrainArgs) :
    (constrain s a).fatalWarn =
      (settleFailFlag a && decide (s.maxwarn < s.warncount_settle + 1)) := by
  show (settleFailFlag a &&
      decide (s.maxwarn <
        (if settleFailFlag a then s.warncount_settle + 1 else s.warncount_settle))) = _
  cases hs : settleFailFlag a <;> simp [hs]

lemma constrainTrace_maxwarn (l : List ConstrainArgs) :
    ∀ s : WarnState, (constrainTrace s l).1.maxwarn = s.maxwarn := by
  induction l with
  | nil => intro s; rfl
  | cons a rest ih =>
      intro s
      simp only [constrainTrace]
      split
      · rfl
      · rw [ih]
        rfl

lemma constrain_warncount_le (s : WarnState) (a : ConstrainArgs) :
    s.warncount_settle ≤ (constrain s a).state.warncount_settle := by
  rw [constrain_warncount_eq]
  split <;> omega

lemma constrainTrace_mono (l : List ConstrainArgs) :
    ∀ s : WarnState, s.warncount_settle ≤ (constrainTrace s l).1.warncount_settle := by
  induction l with
  | nil => intro s; exact le_refl _
  | cons a rest ih =>
      intro s
      simp only [constrainTrace]
      split
      · exact constrain_warncount_le s a
      · exact le_trans (constrain_warncount_le s a) (ih _)

lemma constrainTrace_warn_le (l : List ConstrainArgs) :
    ∀ s : WarnState, s.warncount_settle ≤ s.maxwarn →
      (constrainTrace s l).2 = false →
      (constrainTrace s l).1.warncount_settle ≤ s.maxwarn := by
  induction l with
  | nil => intro s h _; exact h
  | cons a rest ih =>
      intro s h hf
      simp only [constrainTrace] at hf ⊢
      by_cases hw : (constrain s a).fatalWarn = true
      · rw [if_pos hw] at hf
        cases hf
      · rw [if_neg hw] at hf ⊢
        have hstep : (constrain s a).state.warncount_settle ≤ s.maxwarn := by
          rw [constrain_warncount_eq]
          by_cases hs : settleFailFlag a = true
          · rw [if_pos hs]
            rw [constrain_fatalWarn_eq, hs, Bool.true_and] at hw
            simp only [decide_eq_true_eq] at hw
            omega
          · rw [if_neg hs]
            exact h
        have hmw : (constrain s a).state.maxwarn = s.maxwarn := constrain_maxwarn_eq s a
        have := ih (constrain s a).state (by rw [hmw]; exact hstep) hf
        rwa [hmw] at this

/-- C3 (confirmed): the settle-family warning counter never decreases,
a settle failure bumps it by exactly one and a failure-free call leaves
it unchanged, the too-many-warnings fatal fires exactly when the bumped
counter strictly exceeds maxwarn, and across any sequence of calls a
run that was never declared fatal keeps the counter at or below
maxwarn. -/
theorem settle_warncount_policy (s : WarnState) (a : ConstrainArgs) (l : List ConstrainArgs)
    (hinv : s.warncount_settle ≤ s.maxwarn) :
    (s.warncount_settle ≤ (constrain s a).state.warncount_settle)
    ∧ (settleFailFlag a = true →
        (constrain s a).state.warncount_settle = s.warncount_settle + 1)
    ∧ (settleFailFlag a = false →
        (constrain s a).state.warncount_settle = s.warncount_settle)
    ∧ ((constrain s a).fatalWarn = true ↔
        settleFailFlag a = true ∧ s.maxwarn < (constrain s a).state.warncount_settle)
    ∧ (s.warncount_settle ≤ (constrainTrace s l).1.warncount_settle)
    ∧ ((constrainTrace s l).2 = false →
        (constrainTrace s l).1.warncount_settle ≤ s.maxwarn) := by
  refine ⟨constrain_warncount_le s a, ?_, ?_, ?_, constrainTrace_mono l s,
    constrainTrace_warn_le l s hinv⟩
  · intro hs
    rw [constrain_warncount_eq, if_pos hs]
  · intro hs
    rw [constrain_warncount_eq, if_neg (by simp [hs])]
  · rw [constrain_fatalWarn_eq, constrain_warncount_eq]
    cases hs : settleFailFlag a <;> simp [hs]

/-- Witness for the warning-count policy at a concrete failing call. -/
def warnState0 : WarnState := { maxwarn := 999, warncount_settle := 0 }

/-- Arguments for a call in which only the closed-form solver runs and
its thread 0 reports a settle error. -/
def settleFailArgs : ConstrainArgs :=
  { lincsPresent := false, lincsOK := true, lincsVir := 0
    shakePresent := false, shakeOK := true, shakeVir := 0
    nsettle := 4, nthConfig := 2
    settleVir := fun _ => 0, settleErrTh := fun _ => true
    econq := Econq.coord, wantVir := false
    delta_t := 1, step_scaling := 1, bVV := false, bEMin := false, homenr := 12 }

theorem settle_warncount_policy_witness :
    warnState0.warncount_settle ≤ warnState0.maxwarn ∧
    (settleFailFlag settleFailArgs = true →
      (constrain warnState0 settleFailArgs).state.warncount_settle =
        warnState0.warncount_settle + 1) :=
  ⟨by decide, (settle_warncount_policy warnState0 settleFailArgs [] (by decide)).2.1⟩

/-- Arguments exercising both iterative adapters in one call: the LINCS
adapter is present and fails, the SHAKE adapter is present and
succeeds, and there are no settles. -/
def bothSolversArgs : ConstrainArgs :=
  { lincsPresent := true, lincsOK := false, lincsVir := 0
    shakePresent := true, shakeOK := true, shakeVir := 0
    nsettle := 0, nthConfig := 1
    settleVir := fun _ => 0, settleErrTh := fun _ => false
    econq := Econq.coord, wantVir := false
    delta_t := 1, step_scaling := 1, bVV := false, bEMin := false, homenr := 0 }

/-- C1 counterexample: with both iterative adapters invoked, the LINCS
adapter failing and the SHAKE adapter succeeding, constrain returns
success, because line 360 of constr.cpp overwrites bOK with the SHAKE
result instead of combining it with the LINCS result.  This refutes
"returns failure whenever any invoked solver reported failure". -/
theorem constrain_not_combined_counterexample :
    bothSolversArgs.lincsPresent = true ∧ bothSolversArgs.lincsOK = false ∧
    bothSolversArgs.shakePresent = true ∧ bothSolversArgs.shakeOK = true ∧
    settleFailFlag bothSolversArgs = false ∧
    (constrain warnState0 bothSolversArgs).bOK = true := by
  refine ⟨rfl, rfl, rfl, rfl, ?_, ?_⟩ <;> decide

/-- C1 (amended): the pairwise adapter is invoked with the same
failure-handling (dump) policy independently of the linear adapter's
outcome, and the returned flag combines the settle flag with the flag
of the last invoked iterative solver: when at most one of the two
iterative adapters is invoked, constrain returns the combined success
flag (failure exactly when some invoked solver failed); when both are
invoked the pairwise result overwrites the linear result. -/
theorem constrain_success_flag_amended (s : WarnState) (a : ConstrainArgs) :
    ((constrain s a).bOK =
      ((if a.shakePresent then a.shakeOK else if a.lincsPresent then a.lincsOK else true)
        && !settleFailFlag a))
    ∧ (∀ b : Bool, shakeDumpFlag s { a with lincsOK := b } = shakeDumpFlag s a)
    ∧ ((constrain s a).bDump
        = (lincsDumpFlag s a || shakeDumpFlag s a || settleFailFlag a))
    ∧ (a.shakePresent = false →
        ((constrain s a).bOK = false ↔
          (a.lincsPresent = true ∧ a.lincsOK = false) ∨ settleFailFlag a = true))
    ∧ (a.lincsPresent = false →
        ((constrain s a).bOK = false ↔
          (a.shakePresent = true ∧ a.shakeOK = false) ∨ settleFailFlag a = true)) := by
  refine ⟨rfl, fun b => rfl, rfl, ?_, ?_⟩
  · intro h
    rw [constrain_bOK_eq]
    cases hl : a.lincsPresent <;> cases ho : a.lincsOK <;> cases hs : settleFailFlag a <;>
      simp [h, hl, ho, hs]
  · intro h
    rw [constrain_bOK_eq]
    cases hp : a.shakePresent <;> cases ho : a.shakeOK <;> cases hs : settleFailFlag a <;>
      simp [h, hp, ho, hs]

/-- Arguments in which only the LINCS adapter is present and it fails. -/
def lincsOnlyFailArgs : ConstrainArgs :=
  { lincsPresent := true, lincsOK := false, lincsVir := 0
    shakePresent := false, shakeOK := true, shakeVir := 0
    nsettle := 0, nthConfig := 1
    settleVir := fun _ => 0, settleErrTh := fun _ => false
    econq := Econq.coord, wantVir := false
    delta_t := 1, step_scaling := 1, bVV := false, bEMin := false, homenr := 0 }

theorem constrain_success_flag_amended_witness :
    lincsOnlyFailArgs.shakePresent = false ∧
    ((constrain warnState0 lincsOnlyFailArgs).bOK = false ↔
      (lincsOnlyFailArgs.lincsPresent = true ∧ lincsOnlyFailArgs.lincsOK = false) ∨
        settleFailFlag lincsOnlyFailArgs = true) :=
  ⟨rfl, (constrain_success_flag_amended warnState0 lincsOnlyFailArgs).2.2.2.1 rfl⟩

/-- C5 (confirmed): the inverse effective time step handed to the
solver adapters is 0 when the nominal time step is 0 and
1/(step_scaling * delta_t) otherwise; the guard on delta_t keeps the
zero-time-step case away from the division. -/
theorem invdt_guarded (s : WarnState) (a : ConstrainArgs) :
    (a.delta_t = 0 → (constrain s a).invdt = 0)
    ∧ (a.delta_t ≠ 0 → (constrain s a).invdt = 1 / (a.step_scaling * a.delta_t)) := by
  constructor
  · intro h
    show invdtOf a.delta_t a.step_scaling = 0
    unfold invdtOf
    simp [h]
  · intro h
    show invdtOf a.delta_t a.step_scaling = 1 / (a.step_scaling * a.delta_t)
    unfold invdtOf
    simp [h]

/-- Arguments of a minimization-style call with zero nominal time step. -/
def zeroDtArgs : ConstrainArgs :=
  { lincsPresent := false, lincsOK := true, lincsVir := 0
    shakePresent := false, shakeOK := true, shakeVir := 0
    nsettle := 1, nthConfig := 1
    settleVir := fun _ => 0, settleErrTh := fun _ => false
    econq := Econq.coord, wantVir := false
    delta_t := 0, step_scaling := 1, bVV := false, bEMin := true, homenr := 3 }

theorem invdt_guarded_witness :
    zeroDtArgs.delta_t = 0 ∧ (constrain warnState0 zeroDtArgs).invdt = 0 :=
  ⟨rfl, (invdt_guarded warnState0 zeroDtArgs).1 rfl⟩

lemma virFac_eq (q : Econq) (dt : ℚ) (bVV : Bool) :
    virFac q dt bVV = (virFacBase q dt).map (fun f => (if bVV then 2 else 1) * f) := by
  unfold virFac
  cases hv : virFacBase q dt <;> cases bVV <;> simp [mul_comm]

lemma constrain_virOut_eq (s : WarnState) (a : ConstrainArgs) :
    (constrain s a).virOut =
      if a.wantVir then
        (virFac a.econq a.delta_t a.bVV).map (fun f => scaleTensor f (constrainRawVir a))
      else none := rfl

lemma constrain_fatalIncons_eq (s : WarnState) (a : ConstrainArgs) :
    (constrain s a).fatalIncons =
      ((decide (a.econq = Econq.forceDispl) && !a.bEMin)
        || (decide (0 < a.nsettle) && decide (a.econq = Econq.unknown))
        || (a.wantVir && (virFac a.econq a.delta_t a.bVV).isNone)) := rfl

/-- C4 (confirmed): with a virial requested, the output virial is the
raw reduced tensor scaled entrywise by 0.5/dt^2 for coordinates, 0.5/dt
for velocities, 0.5 for force and force-with-displacement, doubled for
a velocity-Verlet-family integrator; any other quantity makes the call
fatal (gmx_incons) and produces no virial. -/
theorem virial_scaling (s : WarnState) (a : ConstrainArgs) (h : a.wantVir = true) :
    (a.econq = Econq.coord →
      (constrain s a).virOut =
        some (scaleTensor ((if a.bVV then 2 else 1) * (1 / 2 / (a.delta_t * a.delta_t)))
          (constrainRawVir a)))
    ∧ (a.econq = Econq.veloc →
      (constrain s a).virOut =
        some (scaleTensor ((if a.bVV then 2 else 1) * (1 / 2 / a.delta_t))
          (constrainRawVir a)))
    ∧ (a.econq = Econq.force →
      (constrain s a).virOut =
        some (scaleTensor ((if a.bVV then 2 else 1) * (1 / 2)) (constrainRawVir a)))
    ∧ (a.econq = Econq.forceDispl →
      (constrain s a).virOut =
        some (scaleTensor ((if a.bVV then 2 else 1) * (1 / 2)) (constrainRawVir a)))
    ∧ ((a.econq = Econq.deriv ∨ a.econq = Econq.derivFlexCon ∨ a.econq = Econq.unknown) →
      (constrain s a).virOut = none ∧ (constrain s a).fatalIncons = true) := by
  have hout : (constrain s a).virOut =
      (virFac a.econq a.delta_t a.bVV).map (fun f => scaleTensor f (constrainRawVir a)) := by
    rw [constrain_virOut_eq, h, if_pos rfl]
  refine ⟨?_, ?_, ?_, ?_, ?_⟩
  · intro hq
    rw [hout, hq, virFac_eq]
    simp [virFacBase]
  · intro hq
    rw [hout, hq, virFac_eq]
    simp [virFacBase]
  · intro hq
    rw [hout, hq, virFac_eq]
    simp [virFacBase]
  · intro hq
    rw [hout, hq, virFac_eq]
    simp [virFacBase]
  · intro hq
    have hnone : virFac a.econq a.delta_t a.bVV = none := by
      rcases hq with hq | hq | hq <;> rw [hq, virFac_eq] <;> simp [virFacBase]
    constructor
    · rw [hout, hnone]
      rfl
    · rw [constrain_fatalIncons_eq, hnone]
      simp [h]

/-- Arguments of a velocity-constraining call with a virial request. -/
def virVelocArgs : ConstrainArgs :=
  { lincsPresent := true, lincsOK := true, lincsVir := fun i j => ((i : ℕ) : ℚ) + ((j : ℕ) : ℚ)
    shakePresent := false, shakeOK := true, shakeVir := 0
    nsettle := 0, nthConfig := 1
    settleVir := fun _ => 0, settleErrTh := fun _ => false
    econq := Econq.veloc, wantVir := true
    delta_t := 2, step_scaling := 1, bVV := true, bEMin := false, homenr := 6 }

theorem virial_scaling_witness :
    virVelocArgs.wantVir = true ∧ virVelocArgs.econq = Econq.veloc ∧
    (constrain warnState0 virVelocArgs).virOut =
      some (scaleTensor ((if virVelocArgs.bVV then 2 else 1) * (1 / 2 / virVelocArgs.delta_t))
        (constrainRawVir virVelocArgs)) :=
  ⟨rfl, rfl, (virial_scaling warnState0 virVelocArgs rfl).2.1 rfl⟩

/-- Concrete base tensor used by the reduction witness. -/
def witnessBase : tensor := fun i j => ((i : ℕ) : ℚ) - ((j : ℕ) : ℚ)

/-- Concrete per-group settle virial contributions for the witness. -/
def witnessContrib : Nat → tensor := fun g i j => ((g : ℚ) + ((i : ℕ) : ℚ)) * ((j : ℕ) : ℚ)

theorem settle_reduction_thread_invariant_witness :
    1 ≤ 2 ∧ reducedSettleVir witnessBase witnessContrib 5 2 =
      reducedSettleVir witnessBase witnessContrib 5 1 :=
  ⟨by decide, settle_reduction_thread_invariant witnessBase witnessContrib 5 2 (by decide)⟩

/-- One worker's action in the settle switch of constrain (lines
382-465).  direct is the csettle call of the econqCoord case, carrying
the calc-virial flag and the thread partition arguments the solver
receives; project is the settle_proj call with its sub-range and the
virial atom limit calcvir_atom_end; idle covers the econqDeriv_FlexCon
no-op and a worker whose sub-range is empty; fatalQuantity is the
gmx_incons default. -/
inductive SettleCall where
  | direct (calcVirial : Bool) (nth th : Nat)
  | project (q : Econq) (start_th end_th calcvirAtomEnd : Nat)
  | idle
  | fatalQuantity
deriving DecidableEq, Repr

/-- Action of worker th in the settle switch, translated case by case
from constr.cpp lines 382-465: econqCoord invokes csettle directly;
econqVeloc/Deriv/Force/ForceDispl invoke settle_proj on the sub-range
[nsettle*th/nth, nsettle*(th+1)/nth) with calcvir_atom_end = 0 when no
virial is requested and md->homenr otherwise; econqDeriv_FlexCon does
nothing; anything else is a fatal inconsistency. -/
def settleThreadCall (q : Econq) (wantVir : Bool) (homenr nsettle nth th : Nat) : SettleCall :=
  match q with
  | .coord => .direct wantVir nth th
  | .veloc | .deriv | .force | .forceDispl =>
      let calcvir_atom_end := if wantVir then homenr else 0
      let start_th := settleStart nsettle nth th
      let end_th := settleEnd nsettle nth th
      if 0 < end_th - start_th then .project q start_th end_th calcvir_atom_end else .idle
  | .derivFlexCon => .idle
  | .unknown => .fatalQuantity

/-- Forgets the virial atom limit of a projection call, keeping every
argument that influences the produced positions/forces. -/
def eraseCalcvir : SettleCall → SettleCall
  | .project q s e _ => .project q s e 0
  | c => c

/-- C7 (confirmed): in the settle path, coordinates use the direct
closed-form call; velocities, derivatives, forces and
force-with-displacement use the projection form whose virial atom limit
is 0 without a virial request and homenr with one, and apart from that
limit the projection call is identical for both virial settings;
DerivativeOfFlexible performs no settle work; any other quantity is
fatal. -/
theorem settle_dispatch (wantVir : Bool) (homenr nsettle nth th : Nat) :
    (settleThreadCall Econq.coord wantVir homenr nsettle nth th = .direct wantVir nth th)
    ∧ (∀ q : Econq,
        (q = Econq.veloc ∨ q = Econq.deriv ∨ q = Econq.force ∨ q = Econq.forceDispl) →
        0 < settleEnd nsettle nth th - settleStart nsettle nth th →
        settleThreadCall q wantVir homenr nsettle nth th =
          .project q (settleStart nsettle nth th) (settleEnd nsettle nth th)
            (if wantVir then homenr else 0))
    ∧ (∀ q : Econq,
        (q = Econq.veloc ∨ q = Econq.deriv ∨ q = Econq.force ∨ q = Econq.forceDispl) →
        eraseCalcvir (settleThreadCall q false homenr nsettle nth th) =
          eraseCalcvir (settleThreadCall q true homenr nsettle nth th))
    ∧ (settleThreadCall Econq.derivFlexCon wantVir homenr nsettle nth th = .idle)
    ∧ (settleThreadCall Econq.unknown wantVir homenr nsettle nth th = .fatalQuantity) := by
  refine ⟨rfl, ?_, ?_, rfl, rfl⟩
  · intro q hq hr
    rcases hq with hq | hq | hq | hq <;> subst hq <;>
      simp [settleThreadCall, if_pos hr] <;> omega
  · intro q hq
    rcases hq with hq | hq | hq | hq <;> subst hq <;>
      simp only [settleThreadCall] <;> split <;> simp [eraseCalcvir]

theorem settle_dispatch_witness :
    (Econq.veloc = Econq.veloc ∨ Econq.veloc = Econq.deriv ∨ Econq.veloc = Econq.force ∨
      Econq.veloc = Econq.forceDispl) ∧
    0 < settleEnd 4 2 0 - settleStart 4 2 0 ∧
    settleThreadCall Econq.veloc true 9 4 2 0 =
      .project Econq.veloc (settleStart 4 2 0) (settleEnd 4 2 0) (if true then 9 else 0) :=
  ⟨Or.inl rfl, by decide,
    (settle_dispatch true 9 4 2 0).2.1 Econq.veloc (Or.inl rfl) (by decide)⟩

/-- One stride-3 entry of a constraint interaction list (F_CONSTR or
F_CONSTRNC): ia[0] is the interaction parameter index, ia[1] and ia[2]
the two atoms (constr.cpp lines 611-631). -/
structure ConstrIatom where
  param : Nat
  a1 : Nat
  a2 : Nat
deriving DecidableEq, Repr

/-- Constraint parameters iparams[].constr: the target lengths dA and
dB at the two free-energy end states. -/
structure ConstrParams where
  dA : ℚ
  dB : ℚ
deriving DecidableEq, Repr

/-- Flexibility test of constr.cpp lines 617-618: a constraint is
flexible iff its target length is exactly zero in both end states. -/
def flexConB (iparams : Nat → ConstrParams) (c : ConstrIatom) : Bool :=
  decide ((iparams c.param).dA = 0 ∧ (iparams c.param).dB = 0)

/-- Flexible-constraint count of the first pass of make_at2con (lines
615-633): every flexible constraint is counted, with no dependence on
the dynamics flag. -/
def at2conNflex (iparams : Nat → ConstrParams) (cons : List ConstrIatom) : Nat :=
  cons.foldl (fun nflexcon c => if flexConB iparams c then nflexcon + 1 else nflexcon) 0

/-- Write sequence of the fill pass of make_at2con (lines 652-672): for
each constraint, taken in order over the concatenated interaction lists
with the global numbering con_tot, the two (atom, constraint) writes are
emitted when the constraint is rigid or dynamics is requested, and
skipped otherwise.  The t_blocka produced by the C code stores exactly
these pairs, grouped by atom via the index/count bucket scatter. -/
def conEntriesAux (iparams : Nat → ConstrParams) (bDynamics : Bool) (start : Nat) :
    Nat → List ConstrIatom → List (Nat × Nat)
  | _, [] => []
  | con_tot, c :: rest =>
      (if bDynamics || !flexConB iparams c then
        [(c.a1 - start, con_tot), (c.a2 - start, con_tot)]
      else [])
        ++ conEntriesAux iparams bDynamics start (con_tot + 1) rest

/-- Functional image of the t_blocka returned by make_at2con: nr is the
atom count, entries the (atom, constraint) adjacency pairs, and nra the
total number of stored pairs (index[natoms]). -/
structure BlockA where
  nr : Nat
  nra : Nat
  entries : List (Nat × Nat)
deriving DecidableEq, Repr

/-- Shallow embedding of make_at2con (constr.cpp lines 600-677): builds
the adjacency pairs over the concatenated F_CONSTR and F_CONSTRNC lists
(the second kind's constraint numbers continue after the first's) and
reports the flexible-constraint count through the out parameter. -/
def make_at2con (start natoms : Nat) (ilistConstr ilistConstrNC : List ConstrIatom)
    (iparams : Nat → ConstrParams) (bDynamics : Bool) : BlockA × Nat :=
  let cons := ilistConstr ++ ilistConstrNC
  let entries := conEntriesAux iparams bDynamics start 0 cons
  ({ nr := natoms, nra := entries.length, entries := entries }, at2conNflex iparams cons)

lemma at2conNflex_go (ip : Nat → ConstrParams) :
    ∀ (l : List ConstrIatom) (n : Nat),
      l.foldl (fun nf c => if flexConB ip c then nf + 1 else nf) n =
        n + l.countP (fun c => flexConB ip c) := by
  intro l
  induction l with
  | nil => intro n; simp
  | cons c rest ih =>
      intro n
      simp only [List.foldl_cons, List.countP_cons, ih]
      by_cases hc : flexConB ip c <;> simp [hc] <;> omega

lemma conEntriesAux_length (ip : Nat → ConstrParams) (dyn : Bool) (st : Nat) :
    ∀ (cot : Nat) (l : List ConstrIatom),
      (conEntriesAux ip dyn st cot l).length =
        2 * l.countP (fun c => dyn || !flexConB ip c) := by
  intro cot l
  induction l generalizing cot with
  | nil => simp [conEntriesAux]
  | cons c rest ih =>
      simp only [conEntriesAux, List.length_append, List.countP_cons, ih]
      by_cases hc : (dyn || !flexConB ip c) = true <;> simp [hc] <;> omega

lemma conEntriesAux_mem (ip : Nat → ConstrParams) (dyn : Bool) (st : Nat) :
    ∀ (cot : Nat) (l : List ConstrIatom) (a i : Nat),
      ((a, i) ∈ conEntriesAux ip dyn st cot l ↔
        ∃ j c, l.get? j = some c ∧ i = cot + j ∧ (dyn || !flexConB ip c) = true ∧
          (a = c.a1 - st ∨ a = c.a2 - st)) := by
  intro cot l
  induction l generalizing cot with
  | nil =>
      intro a i
      simp [conEntriesAux]
  | cons c rest ih =>
      intro a i
      simp only [conEntriesAux, List.mem_append]
      constructor
      · intro h
        rcases h with h | h
        · by_cases hc : (dyn || !flexConB ip c) = true
          · rw [if_pos hc] at h
            simp only [List.mem_cons, List.mem_singleton, List.not_mem_nil, or_false,
              Prod.mk.injEq] at h
            rcases h with ⟨ha, hi⟩ | ⟨ha, hi⟩
            · exact ⟨0, c, by simp, by omega, hc, Or.inl ha⟩
            · exact ⟨0, c, by simp, by omega, hc, Or.inr ha⟩
          · rw [if_neg hc] at h
            cases h
        · rcases (ih (cot + 1) a i).1 h with ⟨j, c2, hj, hi, hcond, ha⟩
          exact ⟨j + 1, c2, by simpa using hj, by omega, hcond, ha⟩
      · rintro ⟨j, c2, hj, hi, hcond, ha⟩
        cases j with
        | zero =>
            simp only [List.get?_cons_zero, Option.some.injEq] at hj
            subst hj
            left
            rw [if_pos hcond]
            rcases ha with ha | ha <;> simp [ha, hi]
        | succ j =>
            right
            exact (ih (cot + 1) a i).2 ⟨j, c2, by simpa using hj, by omega, hcond, ha⟩

/-- C6 (confirmed): with dynamics=false the adjacency holds exactly the
pairs of the k rigid constraints (each included constraint contributes
its two atoms, under the rigid-or-dynamics condition), so nra = 2k;
with dynamics=true every constraint is entered, so nra = 2(k+m), where
a constraint is flexible iff both end-state target lengths are zero. -/
theorem at2con_dynamics_membership (start natoms : Nat)
    (l1 l2 : List ConstrIatom) (ip : Nat → ConstrParams) :
    ((make_at2con start natoms l1 l2 ip false).1.nra =
        2 * (l1 ++ l2).countP (fun c => !flexConB ip c))
    ∧ ((make_at2con start natoms l1 l2 ip true).1.nra =
        2 * ((l1 ++ l2).countP (fun c => !flexConB ip c) +
          (l1 ++ l2).countP (fun c => flexConB ip c)))
    ∧ (∀ a i : Nat, (a, i) ∈ (make_at2con start natoms l1 l2 ip false).1.entries ↔
        ∃ c, (l1 ++ l2).get? i = some c ∧ flexConB ip c = false ∧
          (a = c.a1 - start ∨ a = c.a2 - start))
    ∧ (∀ a i : Nat, (a, i) ∈ (make_at2con start natoms l1 l2 ip true).1.entries ↔
        ∃ c, (l1 ++ l2).get? i = some c ∧ (a = c.a1 - start ∨ a = c.a2 - start)) := by
  have hsplitc : (l1 ++ l2).length =
      (l1 ++ l2).countP (fun c => flexConB ip c) +
        (l1 ++ l2).countP (fun c => !flexConB ip c) := by
    have h := List.length_eq_countP_add_countP (fun c => flexConB ip c) (l1 ++ l2)
    simpa using h
  refine ⟨?_, ?_, ?_, ?_⟩
  · show (conEntriesAux ip false start 0 (l1 ++ l2)).length = _
    rw [conEntriesAux_length]
    simp
  · show (conEntriesAux ip true start 0 (l1 ++ l2)).length = _
    rw [conEntriesAux_length]
    simp only [Bool.true_or, List.countP_true]
    omega
  · intro a i
    rw [show (make_at2con start natoms l1 l2 ip false).1.entries =
        conEntriesAux ip false start 0 (l1 ++ l2) from rfl, conEntriesAux_mem]
    constructor
    · rintro ⟨j, c, hj, hi, hcond, ha⟩
      refine ⟨c, ?_, ?_, ha⟩
      · rw [hi]
        simpa using hj
      · simpa using hcond
    · rintro ⟨c, hc, hflex, ha⟩
      exact ⟨i, c, hc, by omega, by simp [hflex], ha⟩
  · intro a i
    rw [show (make_at2con start natoms l1 l2 ip true).1.entries =
        conEntriesAux ip true start 0 (l1 ++ l2) from rfl, conEntriesAux_mem]
    constructor
    · rintro ⟨j, c, hj, hi, _, ha⟩
      refine ⟨c, ?_, ha⟩
      rw [hi]
      simpa using hj
    · rintro ⟨c, hc, ha⟩
      exact ⟨i, c, hc, by omega, by simp, ha⟩

/-- C10 (confirmed): the flexible-constraint count reported by
make_at2con equals the number of constraints whose target length is
zero in both end states, and is the same whether the dynamics flag is
true or false: the flag affects only adjacency membership. -/
theorem at2con_flexcount_independent (start natoms : Nat) (l1 l2 : List ConstrIatom)
    (ip : Nat → ConstrParams) (b : Bool) :
    ((make_at2con start natoms l1 l2 ip b).2 =
        (l1 ++ l2).countP (fun c => decide ((ip c.param).dA = 0 ∧ (ip c.param).dB = 0)))
    ∧ (make_at2con start natoms l1 l2 ip true).2 =
        (make_at2con start natoms l1 l2 ip false).2 := by
  constructor
  · show at2conNflex ip (l1 ++ l2) = _
    unfold at2conNflex
    rw [at2conNflex_go]
    simp [flexConB]
  · rfl

/-- One molecule type of the topology: atom count, its two constraint
interaction lists and the number of three-point (settle) groups. -/
structure MolType where
  natoms : Nat
  ilistConstr : List ConstrIatom
  ilistConstrNC : List ConstrIatom
  nsettle : Nat
deriving DecidableEq, Repr

/-- Default molecule type for out-of-range indexing. -/
def emptyMolType : MolType :=
  { natoms := 0, ilistConstr := [], ilistConstrNC := [], nsettle := 0 }

/-- A molecule block: a molecule-type index and its molecule count. -/
structure MolBlock where
  type : Nat
  nmol : Nat
deriving DecidableEq, Repr

/-- Global topology: molecule types, molecule blocks and the shared
interaction-parameter table. -/
structure Mtop where
  moltype : List MolType
  molblock : List MolBlock
  iparams : Nat → ConstrParams

/-- Modelled from the spec: gmx_mtop_ftype_count (mtop_util, not among
these sources) counts interactions of one kind globally, that is the
per-molecule-type count weighted by the number of molecules of each
block. -/
def mtopCount (m : Mtop) (f : MolType → Nat) : Nat :=
  (m.molblock.map (fun mb => mb.nmol * f (m.moltype.getD mb.type emptyMolType))).sum

/-- Global count of F_CONSTR plus F_CONSTRNC interactions
(constr.cpp lines 751-753). -/
def mtopNConstraints (m : Mtop) : Nat :=
  mtopCount m (fun mt => mt.ilistConstr.length) +
    mtopCount m (fun mt => mt.ilistConstrNC.length)

/-- Global count of F_SETTLE interactions (lines 754-755). -/
def mtopNSettles (m : Mtop) : Nat := mtopCount m (fun mt => mt.nsettle)

/-- Global count of rigid (non-flexible) constraints, used to state the
claim about inactive managers. -/
def mtopRigidCount (m : Mtop) : Nat :=
  mtopCount m (fun mt =>
    (mt.ilistConstr ++ mt.ilistConstrNC).countP (fun c => !flexConB m.iparams c))

/-- Warning-threshold resolution at manager construction (constr.cpp
lines 874-896): 999 when GMX_MAXCONSTRWARN is unset; otherwise the
parsed value (0 when parsing fails, folded into the option), with a
negative value mapped to INT_MAX, the unlimited policy. -/
def resolveMaxwarn : Option Int → Int
  | none => 999
  | some v => if v < 0 then intMax else v

/-- Values logged for the threshold override (lines 884-895): with an
override present, the effective value goes to the log file when one is
open and to stderr on the master rank; without an override nothing is
logged. -/
def maxwarnLog (env : Option Int) (fplog master : Bool) : List Int :=
  match env with
  | none => []
  | some v =>
      (if fplog then [resolveMaxwarn (some v)] else []) ++
        (if master then [resolveMaxwarn (some v)] else [])

/-- Constraint algorithm selection ir->eConstrAlg. -/
inductive ConstrAlg where
  | lincs
  | shake
deriving DecidableEq, Repr

/-- Manager data built by init_constraints (t_gmx_constr): global
constraint counts, the resolved warning policy and the presence of the
three solver handles. -/
structure GmxConstrData where
  ncon_tot : Nat
  nflexcon : Nat
  maxwarn : Int
  warncount_lincs : Int
  warncount_settle : Int
  hasLincs : Bool
  hasShake : Bool
  hasSettle : Bool
deriving DecidableEq, Repr

/-- Outcome of init_constraints: a gmx_fatal termination, the nullptr
return (inactive manager) or an active manager. -/
inductive InitResult where
  | fatal
  | inactive
  | active (c : GmxConstrData)
deriving DecidableEq, Repr

/-- Global flexible-constraint count computed by init_constraints
(lines 770-812): zero when there are no constraint interactions at all;
otherwise the per-molecule-type counts reported by make_at2con weighted
by molecule numbers, reset to zero when flexible constraints exist, a
log file is open and fc_stepsize is zero (lines 794-806). -/
def initNflexcon (mtop : Mtop) (dynamics fplog fcStepsizeZero : Bool) : Nat :=
  if 0 < mtopNConstraints mtop then
    let raw :=
      ((List.range mtop.moltype.length).map (fun mt =>
        let nf := (make_at2con 0 (mtop.moltype.getD mt emptyMolType).natoms
            (mtop.moltype.getD mt emptyMolType).ilistConstr
            (mtop.moltype.getD mt emptyMolType).ilistConstrNC
            mtop.iparams dynamics).2
        ((mtop.molblock.filter (fun mb => mb.type == mt)).map
          (fun mb => mb.nmol * nf)).sum)).sum
    if decide (0 < raw) && fplog && fcStepsizeZero then 0 else raw
  else 0

/-- Shallow embedding of init_constraints (constr.cpp lines 746-903).
dynamics abstracts EI_DYNAMICS(ir->eI), pullConstraint abstracts
ir->bPull && pull_have_constraint(ir->pull_work), mttk abstracts
ir->epc == epcMTTK, fcStepsizeZero abstracts ir->fc_stepsize == 0 and
ddInterCGcons abstracts DOMAINDECOMP(cr) && cr->dd->bInterCGcons; env
is the parsed GMX_MAXCONSTRWARN override. -/
def init_constraints (mtop : Mtop) (pullConstraint doEssentialDynamics dynamics : Bool)
    (alg : ConstrAlg) (ddInterCGcons mttk fplog fcStepsizeZero : Bool)
    (env : Option Int) : InitResult :=
  if decide (mtopNConstraints mtop + mtopNSettles mtop = 0)
      && !pullConstraint && !doEssentialDynamics then
    .inactive
  else if decide (0 < mtopNConstraints mtop) && decide (alg = ConstrAlg.shake)
      && ddInterCGcons then
    .fatal
  else if decide (0 < mtopNConstraints mtop) && decide (alg = ConstrAlg.shake)
      && decide (0 < initNflexcon mtop dynamics fplog fcStepsizeZero) then
    .fatal
  else if decide (0 < mtopNConstraints mtop + mtopNSettles mtop) && mttk then
    .fatal
  else
    .active
      { ncon_tot := mtopNConstraints mtop
        nflexcon := initNflexcon mtop dynamics fplog fcStepsizeZero
        maxwarn := resolveMaxwarn env
        warncount_lincs := 0
        warncount_settle := 0
        hasLincs := decide (0 < mtopNConstraints mtop) && decide (alg = ConstrAlg.lincs)
        hasShake := decide (0 < mtopNConstraints mtop) && decide (alg = ConstrAlg.shake)
        hasSettle := decide (0 < mtopNSettles mtop) }

/-- The manager handle the caller receives: nullptr for the inactive
return (and no value at all after a fatal termination). -/
def initHandle : InitResult → Option GmxConstrData
  | .active c => some c
  | _ => none

/-- n_flexible_constraints (constr.cpp lines 103-117): a null manager
handle reports zero flexible constraints. -/
def n_flexible_constraints : Option GmxConstrData → Nat
  | some c => c.nflexcon
  | none => 0

/-- Topology with a single molecule holding one flexible constraint
(target length zero in both end states), no rigid constraints and no
settles. -/
def flexOnlyMtop : Mtop :=
  { moltype := [{ natoms := 2, ilistConstr := [⟨0, 0, 1⟩], ilistConstrNC := [], nsettle := 0 }]
    molblock := [{ type := 0, nmol := 1 }]
    iparams := fun _ => { dA := 0, dB := 0 } }

/-- C9 counterexample: a topology with no rigid constraints and no
triple constraints, no constraint pulling and no essential dynamics,
for which init_constraints nevertheless returns an active manager whose
flexible-constraint count is 1: the inactive-return test at lines
759-764 counts all F_CONSTR/F_CONSTRNC interactions, flexible ones
included, not just rigid constraints. -/
theorem init_inactive_counterexample :
    mtopRigidCount flexOnlyMtop = 0 ∧ mtopNSettles flexOnlyMtop = 0 ∧
    init_constraints flexOnlyMtop false false true ConstrAlg.lincs false false true false none ≠
      InitResult.inactive ∧
    n_flexible_constraints (initHandle
      (init_constraints flexOnlyMtop false false true ConstrAlg.lincs false false true false
        none)) = 1 := by
  refine ⟨by decide, by decide, by decide, by decide⟩

/-- C9 (amended): for every topology containing no constraint
interactions of either kind (rigid or flexible) and no triple
constraints, when neither constraint pulling nor essential dynamics is
requested, init_constraints returns the inactive (null) manager handle,
and querying the flexible-constraint count of that handle returns 0. -/
theorem init_inactive_amended (mtop : Mtop) (pull ed dyn : Bool) (alg : ConstrAlg)
    (dd mttk fplog fcz : Bool) (env : Option Int)
    (h1 : mtopNConstraints mtop = 0) (h2 : mtopNSettles mtop = 0)
    (h3 : pull = false) (h4 : ed = false) :
    init_constraints mtop pull ed dyn alg dd mttk fplog fcz env = InitResult.inactive ∧
    n_flexible_constraints (initHandle
      (init_constraints mtop pull ed dyn alg dd mttk fplog fcz env)) = 0 := by
  have hcond : init_constraints mtop pull ed dyn alg dd mttk fplog fcz env =
      InitResult.inactive := by
    unfold init_constraints
    rw [h1, h2, h3, h4]
    simp
  exact ⟨hcond, by rw [hcond]; rfl⟩

/-- Topology with no interactions at all. -/
def emptyMtop : Mtop :=
  { moltype := [], molblock := [], iparams := fun _ => { dA := 1, dB := 1 } }

theorem init_inactive_amended_witness :
    (mtopNConstraints emptyMtop = 0 ∧ mtopNSettles emptyMtop = 0) ∧
    init_constraints emptyMtop false false true ConstrAlg.lincs false false false false none =
      InitResult.inactive :=
  ⟨⟨by decide, by decide⟩,
    (init_inactive_amended emptyMtop false false true ConstrAlg.lincs false false false false
      none (by decide) (by decide) rfl rfl).1⟩

lemma init_active_maxwarn (mtop : Mtop) (pull ed dyn : Bool) (alg : ConstrAlg)
    (dd mttk fplog fcz : Bool) (env : Option Int) (c : GmxConstrData)
    (h : initHandle (init_constraints mtop pull ed dyn alg dd mttk fplog fcz env) = some c) :
    c.maxwarn = resolveMaxwarn env := by
  unfold init_constraints at h
  split at h
  · simp [initHandle] at h
  · split at h
    · simp [initHandle] at h
    · split at h
      · simp [initHandle] at h
      · split at h
        · simp [initHandle] at h
        · simp only [initHandle, Option.some.injEq] at h
          rw [← h]

/-- C8 (confirmed): the warning threshold defaults to 999, the
environment override is resolved once at initialization with a negative
value mapped to the unlimited INT_MAX and a non-negative value taken as
is, the effective value is logged when an override is present, the
manager built by init_constraints stores exactly the resolved value,
and no constrain call (nor any sequence of calls) changes the stored
threshold: it is never re-read. -/
theorem maxwarn_policy (s : WarnState) (a : ConstrainArgs) (l : List ConstrainArgs)
    (mtop : Mtop) (pull ed dyn : Bool) (alg : ConstrAlg) (dd mttk fplog fcz master : Bool)
    (env : Option Int) (v : Int) (hv : v < 0) :
    resolveMaxwarn none = 999
    ∧ resolveMaxwarn (some v) = intMax
    ∧ (∀ w : Int, 0 ≤ w → resolveMaxwarn (some w) = w)
    ∧ (∀ w : Int, fplog = true → resolveMaxwarn (some w) ∈ maxwarnLog (some w) fplog master)
    ∧ (∀ c : GmxConstrData,
        initHandle (init_constraints mtop pull ed dyn alg dd mttk fplog fcz env) = some c →
          c.maxwarn = resolveMaxwarn env)
    ∧ ((constrain s a).state.maxwarn = s.maxwarn)
    ∧ ((constrainTrace s l).1.maxwarn = s.maxwarn) := by
  refine ⟨rfl, ?_, ?_, ?_, ?_, constrain_maxwarn_eq s a, constrainTrace_maxwarn l s⟩
  · show (if v < 0 then intMax else v) = intMax
    rw [if_pos hv]
  · intro w hw
    show (if w < 0 then intMax else w) = w
    rw [if_neg (by omega)]
  · intro w hf
    simp [maxwarnLog, hf]
  · exact fun c h => init_active_maxwarn mtop pull ed dyn alg dd mttk fplog fcz env c h

theorem maxwarn_policy_witness :
    ((-3 : Int) < 0) ∧ resolveMaxwarn (some (-3)) = intMax :=
  ⟨by decide,
    (maxwarn_policy warnState0 zeroDtArgs [] emptyMtop false false true ConstrAlg.lincs
      false false false false false none (-3) (by decide)).2.1⟩
